import Mathlib

/-!
Verification of the schema type system, path resolution and nested-attribute
validation engine of a Terraform plugin framework fork.

The embedding follows the Go sources:
- datasource/schema/schema.go       : Schema, path resolution, type derivation
- datasource/schema/nested_attribute_object.go : NestedAttributeObject
- internal/fwserver attribute validation (second document in schema.go):
  AttributeValidate, AttributeValidateNestedAttributes

Go maps (map[string]T) are embedded as association lists; map assignment is
modelled by an insert-or-overwrite operation, and uniqueness of keys is taken
as a hypothesis where a proof needs it (Go maps cannot hold duplicate keys).
Parts of the repository that are not in the source sample (the concrete
attribute implementations, the types package, tftypes.WalkAttributePath and
the fwschemadata value extraction) are modelled from the specification; their
doc comments say so.
-/

namespace TFW

/-- Association-list lookup, embedding Go map indexing `m[k]`. -/
def alookup {α : Type} : List (String × α) → String → Option α
  | [], _ => none
  | (k, v) :: rest, n => if k = n then some v else alookup rest n

/-- Insert-or-overwrite, embedding Go map assignment `m[k] = v`. -/
def ainsert {α : Type} (m : List (String × α)) (k : String) (v : α) :
    List (String × α) :=
  if (alookup m k).isSome then
    m.map (fun p => if p.1 = k then (k, v) else p)
  else
    m ++ [(k, v)]

/-- The closed attribute type algebra (attr.Type): primitive scalars and the
parametrized collection and object types.  Object fields are an association
list embedding the Go map of field name to type. -/
inductive AttrType : Type where
  | boolT : AttrType
  | stringT : AttrType
  | int64T : AttrType
  | float64T : AttrType
  | listT (elem : AttrType) : AttrType
  | setT (elem : AttrType) : AttrType
  | mapT (elem : AttrType) : AttrType
  | objectT (fields : List (String × AttrType)) : AttrType

mutual

/-- Modelled from the spec: structural type equality of the types package —
two types are Equal iff they are the same variant and all parameters are
recursively Equal; object types compare their field maps by name,
independent of entry order. -/
def AttrType.Equal : AttrType → AttrType → Bool
  | .boolT, .boolT => true
  | .stringT, .stringT => true
  | .int64T, .int64T => true
  | .float64T, .float64T => true
  | .listT a, .listT b => AttrType.Equal a b
  | .setT a, .setT b => AttrType.Equal a b
  | .mapT a, .mapT b => AttrType.Equal a b
  | .objectT fs, .objectT gs =>
      fs.length == gs.length && AttrType.fieldsIn fs gs
  | _, _ => false

/-- Every field of the first map is present in the second with an Equal type. -/
def AttrType.fieldsIn : List (String × AttrType) → List (String × AttrType) → Bool
  | [], _ => true
  | (k, t) :: rest, gs =>
      (match alookup gs k with
       | some u => AttrType.Equal t u
       | none => false) && AttrType.fieldsIn rest gs

end

/-- The tri-state wire value model: every value is known-with-data, null, or
unknown.  Collections carry their element values; maps and objects carry
association lists embedding Go maps. -/
inductive Val : Type where
  | null : Val
  | unknown : Val
  | bool (b : Bool) : Val
  | str (s : String) : Val
  | int (n : Int) : Val
  | list (elems : List Val) : Val
  | set (elems : List Val) : Val
  | map (entries : List (String × Val)) : Val
  | obj (fields : List (String × Val)) : Val

mutual

/-- Modelled from the spec: full structural value equality, used to address a
set element by value identity. -/
def Val.beq : Val → Val → Bool
  | .null, .null => true
  | .unknown, .unknown => true
  | .bool a, .bool b => a == b
  | .str a, .str b => a == b
  | .int a, .int b => a == b
  | .list a, .list b => Val.beqList a b
  | .set a, .set b => Val.beqList a b
  | .map a, .map b => Val.beqEntries a b
  | .obj a, .obj b => Val.beqEntries a b
  | _, _ => false

/-- Element-wise value equality of two lists. -/
def Val.beqList : List Val → List Val → Bool
  | [], [] => true
  | a :: as', b :: bs' => Val.beq a b && Val.beqList as' bs'
  | _, _ => false

/-- Entry-wise equality of two association lists of values. -/
def Val.beqEntries : List (String × Val) → List (String × Val) → Bool
  | [], [] => true
  | (k, a) :: as', (l, b) :: bs' => k == l && Val.beq a b && Val.beqEntries as' bs'
  | _, _ => false

end

/-- A value is null. -/
def Val.isNull : Val → Bool
  | .null => true
  | _ => false

/-- A value is unknown. -/
def Val.isUnknown : Val → Bool
  | .unknown => true
  | _ => false

/-- Elements of a collection value; a null or unknown collection has none,
matching the behaviour of Elements() on null and unknown framework values. -/
def Val.elements : Val → List Val
  | .list es => es
  | .set es => es
  | _ => []

/-- Entries of a map value; null and unknown maps have none. -/
def Val.entries : Val → List (String × Val)
  | .map es => es
  | _ => []

/-- The value can be handled as a list value (types.ListValuable): for a
well-typed configuration this holds for known, null and unknown list values. -/
def Val.isListShaped : Val → Bool
  | .list _ => true
  | .null => true
  | .unknown => true
  | _ => false

/-- The value can be handled as a set value (types.SetValuable). -/
def Val.isSetShaped : Val → Bool
  | .set _ => true
  | .null => true
  | .unknown => true
  | _ => false

/-- The value can be handled as a map value (types.MapValuable). -/
def Val.isMapShaped : Val → Bool
  | .map _ => true
  | .null => true
  | .unknown => true
  | _ => false

/-- The value can be handled as an object value (types.ObjectValuable). -/
def Val.isObjectShaped : Val → Bool
  | .obj _ => true
  | .null => true
  | .unknown => true
  | _ => false

/-- One step of a path (tftypes.AttributePathStep): attribute name, list
element index, map element key, or set element value. -/
inductive PathStep : Type where
  | attributeName (name : String) : PathStep
  | elementKeyInt (idx : Nat) : PathStep
  | elementKeyString (key : String) : PathStep
  | elementKeyValue (value : Val) : PathStep

/-- Nesting mode of a nested attribute (fwschema.NestingMode); unknown is the
error sentinel NestingModeUnknown. -/
inductive NestingMode : Type where
  | list : NestingMode
  | set : NestingMode
  | map : NestingMode
  | single : NestingMode
  | unknown : NestingMode
deriving DecidableEq

/-- An attribute of the datasource schema: either a leaf with a concrete type
or a nested attribute with a nesting mode and child attributes.  Both carry
the Required, Optional, Computed flags, a deprecation message and a list of
validator identifiers (validators are opaque callables; an environment maps
identifiers to their behaviour). -/
inductive Attribute : Type where
  | leaf (required optional computed : Bool) (deprecationMessage : String)
      (typ : AttrType) (validators : List Nat) : Attribute
  | nested (required optional computed : Bool) (deprecationMessage : String)
      (mode : NestingMode) (children : List (String × Attribute))
      (validators : List Nat) : Attribute

/-- IsRequired field accessor. -/
def Attribute.IsRequired : Attribute → Bool
  | .leaf r _ _ _ _ _ => r
  | .nested r _ _ _ _ _ _ => r

/-- IsOptional field accessor. -/
def Attribute.IsOptional : Attribute → Bool
  | .leaf _ o _ _ _ _ => o
  | .nested _ o _ _ _ _ _ => o

/-- IsComputed field accessor. -/
def Attribute.IsComputed : Attribute → Bool
  | .leaf _ _ c _ _ _ => c
  | .nested _ _ c _ _ _ _ => c

/-- GetDeprecationMessage field accessor. -/
def Attribute.GetDeprecationMessage : Attribute → String
  | .leaf _ _ _ d _ _ => d
  | .nested _ _ _ d _ _ _ => d

/-- Validator identifiers attached to the attribute (GetValidators). -/
def Attribute.getValidators : Attribute → List Nat
  | .leaf _ _ _ _ _ vs => vs
  | .nested _ _ _ _ _ _ vs => vs

mutual

/-- Modelled from the spec: GetType of an attribute — a leaf attribute has its
concrete type; a nested attribute's nesting mode determines which collection
shape wraps the nested object type synthesized from the children (the Unknown
sentinel falls back to the bare object type). -/
def Attribute.GetType : Attribute → AttrType
  | .leaf _ _ _ _ t _ => t
  | .nested _ _ _ _ mode children _ =>
      let obj := AttrType.objectT (attrTypesList children)
      match mode with
      | .list => .listT obj
      | .set => .setT obj
      | .map => .mapT obj
      | .single => obj
      | .unknown => obj

/-- The map of field name to attribute type synthesized from a child
attribute map. -/
def attrTypesList : List (String × Attribute) → List (String × AttrType)
  | [] => []
  | (n, a) :: rest => (n, a.GetType) :: attrTypesList rest

end

mutual

/-- Modelled from the spec: attribute equality — pairwise equality of every
capability field, child maps compared by name independent of entry order. -/
def Attribute.Equal : Attribute → Attribute → Bool
  | .leaf r1 o1 c1 d1 t1 v1, .leaf r2 o2 c2 d2 t2 v2 =>
      r1 == r2 && o1 == o2 && c1 == c2 && d1 == d2 &&
      AttrType.Equal t1 t2 && v1 == v2
  | .nested r1 o1 c1 d1 m1 cs1 v1, .nested r2 o2 c2 d2 m2 cs2 v2 =>
      r1 == r2 && o1 == o2 && c1 == c2 && d1 == d2 && m1 == m2 &&
      cs1.length == cs2.length && Attribute.childrenIn cs1 cs2 && v1 == v2
  | _, _ => false

/-- Every child of the first map is present in the second with an Equal
attribute. -/
def Attribute.childrenIn : List (String × Attribute) → List (String × Attribute) → Bool
  | [], _ => true
  | (k, a) :: rest, gs =>
      (match alookup gs k with
       | some b => Attribute.Equal a b
       | none => false) && Attribute.childrenIn rest gs

end

/-- NestedAttributeObject: the object holding the underlying attributes of a
list, map or set nested attribute, with an optional custom type override. -/
structure NestedAttributeObject : Type where
  attributes : List (String × Attribute)
  customType : Option AttrType

/-- Type of a NestedAttributeObject: the custom type override when set,
otherwise the object type synthesized from the child attribute types. -/
def NestedAttributeObject.Type (o : NestedAttributeObject) : AttrType :=
  match o.customType with
  | some t => t
  | none => AttrType.objectT (attrTypesList o.attributes)

/-- Equal of NestedAttributeObject: the derived types must be equal, the
child maps must have the same length, and every child of the receiver must be
present in the other map with an Equal attribute. -/
def NestedAttributeObject.Equal (o other : NestedAttributeObject) : Bool :=
  if !(AttrType.Equal o.Type other.Type) then false
  else if !(o.attributes.length == other.attributes.length) then false
  else Attribute.childrenIn o.attributes other.attributes

/-- A block: a structural schema node with a block nesting mode and child
attributes.  Modelled from the spec: a block composes the same nested object
concept as nested attributes. -/
structure Block : Type where
  mode : NestingMode
  attributes : List (String × Attribute)

/-- Modelled from the spec: Type of a block — the block nesting mode wraps the
object type synthesized from the child attribute types. -/
def Block.Type (b : Block) : AttrType :=
  let obj := AttrType.objectT (attrTypesList b.attributes)
  match b.mode with
  | .list => .listT obj
  | .set => .setT obj
  | _ => obj

/-- The datasource schema: named attributes, named blocks and descriptive
metadata.  The key namespaces of the two maps are not disjoint by
construction. -/
structure Schema : Type where
  attributes : List (String × Attribute)
  blocks : List (String × Block)
  description : String
  markdownDescription : String
  deprecationMessage : String

/-- A node the generic path walk can stop at: the schema itself, an attribute,
a block, an underlying-attributes holder, a nested-block holder, or a bare
type. -/
inductive WalkNode : Type where
  | schema (s : Schema) : WalkNode
  | attr (a : Attribute) : WalkNode
  | block (b : Block) : WalkNode
  | nestedObject (children : List (String × Attribute)) : WalkNode
  | nestedBlock (b : Block) : WalkNode
  | typ (t : AttrType) : WalkNode

/-- ApplyTerraform5AttributePathStep of the schema: an attribute-name step is
looked up first among the attributes, then among the blocks; any other step
kind is an error. -/
def Schema.ApplyTerraform5AttributePathStep (s : Schema) :
    PathStep → Except String WalkNode
  | .attributeName n =>
      match alookup s.attributes n with
      | some a => .ok (.attr a)
      | none =>
          match alookup s.blocks n with
          | some b => .ok (.block b)
          | none => .error "could not find attribute or block in schema"
  | _ => .error "cannot apply AttributePathStep to schema"

/-- ApplyTerraform5AttributePathStep of a nested attribute object or an
underlying-attributes holder: an attribute-name step selects the named child
attribute. -/
def nestedObjectApplyStep (children : List (String × Attribute)) :
    PathStep → Except String WalkNode
  | .attributeName n =>
      match alookup children n with
      | some a => .ok (.attr a)
      | none => .error "no attribute with that name on NestedAttributeObject"
  | _ => .error "cannot apply step to NestedAttributeObject"

/-- Modelled from the spec: stepping inside a bare type — a collection element
step is valid only against the matching collection type and yields the element
type; an attribute-name step selects an object field type. -/
def typeApplyStep : AttrType → PathStep → Except String AttrType
  | .listT e, .elementKeyInt _ => .ok e
  | .setT e, .elementKeyValue _ => .ok e
  | .mapT e, .elementKeyString _ => .ok e
  | .objectT fs, .attributeName n =>
      match alookup fs n with
      | some t => .ok t
      | none => .error "undefined attribute name in object type"
  | _, _ => .error "cannot apply step to type"

/-- Modelled from the spec: stepping into an attribute — a leaf attribute
delegates to its type; a nested attribute accepts exactly the element step of
its nesting mode and yields the underlying-attributes holder, except a
single-nested attribute which is stepped by attribute name directly. -/
def attributeApplyStep : Attribute → PathStep → Except String WalkNode
  | .leaf _ _ _ _ t _, step => (typeApplyStep t step).map .typ
  | .nested _ _ _ _ mode children _, step =>
      match mode, step with
      | .list, .elementKeyInt _ => .ok (.nestedObject children)
      | .set, .elementKeyValue _ => .ok (.nestedObject children)
      | .map, .elementKeyString _ => .ok (.nestedObject children)
      | .single, .attributeName n =>
          match alookup children n with
          | some c => .ok (.attr c)
          | none => .error "undefined attribute name in nested attribute"
      | _, _ => .error "cannot apply step to nested attribute"

/-- Modelled from the spec: stepping into a block — the element step matching
the block nesting mode yields the nested-block holder; a single-nested block
is stepped by attribute name directly. -/
def blockApplyStep (b : Block) : PathStep → Except String WalkNode :=
  fun step =>
    match b.mode, step with
    | .list, .elementKeyInt _ => .ok (.nestedBlock b)
    | .set, .elementKeyValue _ => .ok (.nestedBlock b)
    | .single, .attributeName n =>
        match alookup b.attributes n with
        | some a => .ok (.attr a)
        | none => .error "undefined attribute name in block"
    | _, _ => .error "cannot apply step to block"

/-- Stepping into a nested-block holder selects a child attribute by name. -/
def nestedBlockApplyStep (b : Block) : PathStep → Except String WalkNode
  | .attributeName n =>
      match alookup b.attributes n with
      | some a => .ok (.attr a)
      | none => .error "undefined attribute name in nested block"
  | _ => .error "cannot apply step to nested block"

/-- Dispatch of one path step on the dynamic kind of the current node. -/
def walkApplyStep : WalkNode → PathStep → Except String WalkNode
  | .schema s, step => s.ApplyTerraform5AttributePathStep step
  | .attr a, step => attributeApplyStep a step
  | .block b, step => blockApplyStep b step
  | .nestedObject cs, step => nestedObjectApplyStep cs step
  | .nestedBlock b, step => nestedBlockApplyStep b step
  | .typ t, step => (typeApplyStep t step).map .typ

/-- Modelled from the spec: tftypes.WalkAttributePath — consume one path step
at a time, dispatching on the current node; the walk halts on the first
invalid step with the underlying structural error. -/
def WalkAttributePath (node : WalkNode) : List PathStep → Except String WalkNode
  | [] => .ok node
  | step :: rest =>
      match walkApplyStep node step with
      | .error e => .error e
      | .ok next => WalkAttributePath next rest

/-- The error outcomes of schema path resolution: the two categorized
non-fatal errors, the unexpected-type fallback, and a wrapped walk error. -/
inductive ResolveErr : Type where
  | pathInsideAtomicAttribute : ResolveErr
  | pathIsBlock : ResolveErr
  | unexpectedType : ResolveErr
  | walkError (msg : String) : ResolveErr
deriving DecidableEq

/-- AttributeAtTerraformPath: walk the path from the schema and classify the
terminal node — an Attribute is returned; a bare type, an
underlying-attributes holder or a nested-block holder is
ErrPathInsideAtomicAttribute; a Block is ErrPathIsBlock; any other shape is
the unexpected-type error. -/
def Schema.AttributeAtTerraformPath (s : Schema) (p : List PathStep) :
    Except ResolveErr Attribute :=
  match WalkAttributePath (.schema s) p with
  | .error e => .error (.walkError e)
  | .ok res =>
      match res with
      | .typ _ => .error .pathInsideAtomicAttribute
      | .nestedObject _ => .error .pathInsideAtomicAttribute
      | .nestedBlock _ => .error .pathInsideAtomicAttribute
      | .attr a => .ok a
      | .block _ => .error .pathIsBlock
      | .schema _ => .error .unexpectedType

/-- The fields of the schema object type: every attribute type is written into
the map first, then every block type, later writes overwriting earlier ones
with the same name (Go map assignment). -/
def schemaTypeFields (s : Schema) : List (String × AttrType) :=
  let m := s.attributes.foldl (fun m p => ainsert m p.1 p.2.GetType) []
  s.blocks.foldl (fun m p => ainsert m p.1 p.2.Type) m

/-- Type of the schema: the object type over the merged attribute and block
types. -/
def Schema.Type (s : Schema) : AttrType :=
  .objectT (schemaTypeFields s)

/-- TypeAtTerraformPath: the same walk as AttributeAtTerraformPath, but every
terminal shape yields its framework type — a bare type itself, the object
type of an underlying-attributes holder, an attribute's GetType, the type of
the block under a nested-block holder, a block's type, and the schema's own
type. -/
def Schema.TypeAtTerraformPath (s : Schema) (p : List PathStep) :
    Except ResolveErr AttrType :=
  match WalkAttributePath (.schema s) p with
  | .error e => .error (.walkError e)
  | .ok res =>
      match res with
      | .typ t => .ok t
      | .nestedObject cs =>
          .ok (AttrType.objectT (attrTypesList cs))
      | .attr a => .ok a.GetType
      | .nestedBlock b => .ok b.Type
      | .block b => .ok b.Type
      | .schema s' => .ok s'.Type

/-- Severity of a diagnostic. -/
inductive Severity : Type where
  | error : Severity
  | warning : Severity
deriving DecidableEq

/-- One diagnostic: severity, the path it is attached to, summary and detail.
Interpolated path renderings inside Go detail texts are elided. -/
structure Diagnostic : Type where
  severity : Severity
  path : List PathStep
  summary : String
  detail : String

/-- Diagnostics.HasError: some diagnostic in the accumulator has error
severity. -/
def hasError (ds : List Diagnostic) : Bool :=
  ds.any (fun d => d.severity == .error)

/-- Summary used by the missing-required-attribute diagnostic. -/
def missingRequiredSummary : String := "Missing Configuration for Required Attribute"

/-- The invalid-attribute-definition error for an attribute that is neither
Required nor Optional nor Computed. -/
def invalidDefinitionDiag (p : List PathStep) : Diagnostic :=
  { severity := .error, path := p, summary := "Invalid Attribute Definition",
    detail := "Attribute missing Required, Optional, or Computed definition." }

/-- The read-only error for a computed non-optional attribute with a
configured value. -/
def readOnlyDiag (p : List PathStep) : Diagnostic :=
  { severity := .error, path := p,
    summary := "Invalid Configuration for Read-Only Attribute",
    detail := "Cannot set value for this attribute as the provider has marked it as read-only." }

/-- The missing-required-attribute error. -/
def missingRequiredDiag (p : List PathStep) : Diagnostic :=
  { severity := .error, path := p, summary := missingRequiredSummary,
    detail := "Must set a configuration value for this attribute as the provider has marked it as required." }

/-- The invalid-value-type error raised when the extracted value does not
support the capability required by the declared nesting mode. -/
def invalidValueTypeDiag (p : List PathStep) : Diagnostic :=
  { severity := .error, path := p,
    summary := "Attribute Validation Error Invalid Value Type",
    detail := "A type that implements the valuable capability of the nesting mode is expected here." }

/-- The unsupported-nesting-mode error raised by the default case of the
nesting mode switch. -/
def unsupportedModeDiag (p : List PathStep) : Diagnostic :=
  { severity := .error, path := p, summary := "Attribute Validation Error",
    detail := "Attribute validation cannot walk schema." }

/-- The deprecation warning: its detail is the attribute's deprecation
message. -/
def deprecationDiag (p : List PathStep) (msg : String) : Diagnostic :=
  { severity := .warning, path := p, summary := "Attribute Deprecated",
    detail := msg }

/-- The error diagnostic produced when the configuration value at a path
cannot be extracted. -/
def valueAtPathErrDiag (p : List PathStep) : Diagnostic :=
  { severity := .error, path := p, summary := "Configuration Read Error",
    detail := "An unexpected error was encountered trying to read an attribute from the configuration." }

/-- Modelled from the spec: walking a raw tri-state value tree by path steps.
Stepping inside a null or unknown value yields a null or unknown child;
an inapplicable step fails. -/
def walkVal : Val → List PathStep → Option Val
  | v, [] => some v
  | .obj fs, .attributeName n :: rest =>
      match alookup fs n with
      | some v => walkVal v rest
      | none => none
  | .list es, .elementKeyInt i :: rest =>
      match es.get? i with
      | some v => walkVal v rest
      | none => none
  | .map es, .elementKeyString k :: rest =>
      match alookup es k with
      | some v => walkVal v rest
      | none => none
  | .set es, .elementKeyValue v :: rest =>
      if es.any (fun e => Val.beq e v) then walkVal v rest else none
  | .null, _ :: _ => some .null
  | .unknown, _ :: _ => some .unknown
  | _, _ :: _ => none

/-- Modelled from the spec: extraction of the configuration value at an
attribute's path (fwschemadata ValueAtPath); a failed walk surfaces error
diagnostics at that path. -/
def valueAtPath (config : Val) (p : List PathStep) : Except (List Diagnostic) Val :=
  match walkVal config p with
  | some v => .ok v
  | none => .error [valueAtPathErrDiag p]

/-- A validator environment: interprets a validator identifier as the
diagnostics the validator appends for a request path and attribute value. -/
def ValidatorEnv : Type := Nat → List PathStep → Val → List Diagnostic

/-- Diagnostics appended by running the attribute's validators in order. -/
def validatorDiags (venv : ValidatorEnv) (ids : List Nat)
    (p : List PathStep) (v : Val) : List Diagnostic :=
  ids.flatMap (fun i => venv i p v)

mutual

/-- AttributeValidate: performs all attribute validation — the
definition-consistency checks, extraction of the configuration value at the
attribute's path, the read-only and required checks, the provider-defined
validators, nested-attribute validation, and finally the deprecation warning
for known values.  The diagnostics accumulator is threaded through and only
appended to. -/
def AttributeValidate (venv : ValidatorEnv) (a : Attribute) (path : List PathStep)
    (config : Val) (diags : List Diagnostic) : List Diagnostic :=
  if !a.IsRequired && !a.IsOptional && !a.IsComputed then
    diags ++ [invalidDefinitionDiag path]
  else
    match valueAtPath config path with
    | .error eds => diags ++ eds
    | .ok v =>
        let d1 := diags ++
          (if a.IsComputed && !a.IsOptional && !v.isNull then [readOnlyDiag path] else [])
        let d2 := d1 ++
          (if a.IsRequired && v.isNull then [missingRequiredDiag path] else [])
        let d3 := d2 ++ validatorDiags venv a.getValidators path v
        let d4 := AttributeValidateNestedAttributes venv a path config v d3
        d4 ++
          (if a.GetDeprecationMessage != "" && !v.isNull && !v.isUnknown then
            [deprecationDiag path a.GetDeprecationMessage] else [])
termination_by (sizeOf a, 3, 0)

/-- AttributeValidateNestedAttributes: per nesting mode, checks that the
extracted value supports the required collection capability, appends the
conversion diagnostics, stops if the shared accumulator holds any error, and
otherwise enumerates elements and recurses over the declared child
attributes.  A single-nested attribute with a null or unknown value skips
descent; an unknown nesting mode is the unsupported-mode error. -/
def AttributeValidateNestedAttributes (venv : ValidatorEnv) (a : Attribute)
    (path : List PathStep) (config : Val) (attributeConfig : Val)
    (diags : List Diagnostic) : List Diagnostic :=
  match a with
  | .leaf _ _ _ _ _ _ => diags
  | .nested _ _ _ _ mode children _ =>
      match mode with
      | .list =>
          if !attributeConfig.isListShaped then diags ++ [invalidValueTypeDiag path]
          else if hasError diags then diags
          else
            validateElements venv
              ((List.range attributeConfig.elements.length).map
                (fun i => path ++ [.elementKeyInt i]))
              children config diags
      | .set =>
          if !attributeConfig.isSetShaped then diags ++ [invalidValueTypeDiag path]
          else if hasError diags then diags
          else
            validateElements venv
              (attributeConfig.elements.map (fun v => path ++ [.elementKeyValue v]))
              children config diags
      | .map =>
          if !attributeConfig.isMapShaped then diags ++ [invalidValueTypeDiag path]
          else if hasError diags then diags
          else
            validateElements venv
              (attributeConfig.entries.map (fun kv => path ++ [.elementKeyString kv.1]))
              children config diags
      | .single =>
          if !attributeConfig.isObjectShaped then diags ++ [invalidValueTypeDiag path]
          else if hasError diags then diags
          else if attributeConfig.isNull || attributeConfig.isUnknown then diags
          else validateChildList venv path children config diags
      | .unknown => diags ++ [unsupportedModeDiag path]
termination_by (sizeOf a, 2, 0)

/-- Iteration over the element path prefixes of a collection value: each
element's child attributes are validated in turn, threading the accumulator. -/
def validateElements (venv : ValidatorEnv) (pfxs : List (List PathStep))
    (children : List (String × Attribute)) (config : Val)
    (diags : List Diagnostic) : List Diagnostic :=
  match pfxs with
  | [] => diags
  | q :: rest =>
      validateElements venv rest children config
        (validateChildList venv q children config diags)
termination_by (sizeOf children, 1, pfxs.length)

/-- Iteration over the declared child attributes of one element: each child is
validated at the element path extended by the child name. -/
def validateChildList (venv : ValidatorEnv) (pfx : List PathStep)
    (cs : List (String × Attribute)) (config : Val)
    (diags : List Diagnostic) : List Diagnostic :=
  match cs with
  | [] => diags
  | (n, c) :: rest =>
      validateChildList venv pfx rest config
        (AttributeValidate venv c (pfx ++ [.attributeName n]) config diags)
termination_by (sizeOf cs, 0, 0)

end

/-! ## Helper lemmas about association lists -/

/-- A successful lookup produces a member of the list. -/
theorem mem_of_alookup_eq_some {α : Type} {m : List (String × α)} {k : String} {v : α}
    (h : alookup m k = some v) : (k, v) ∈ m := by
  induction m with
  | nil => simp [alookup] at h
  | cons p rest ih =>
      obtain ⟨k1, v1⟩ := p
      by_cases hk : k1 = k
      · subst hk
        simp [alookup] at h
        simp [h]
      · simp [alookup, hk] at h
        exact List.mem_cons_of_mem _ (ih h)

/-- Lookup is some exactly when the key occurs among the keys. -/
theorem alookup_isSome_iff_mem {α : Type} (m : List (String × α)) (k : String) :
    (alookup m k).isSome = true ↔ k ∈ m.map Prod.fst := by
  induction m with
  | nil => simp [alookup]
  | cons p rest ih =>
      obtain ⟨k1, v1⟩ := p
      by_cases hk : k1 = k
      · subst hk; simp [alookup]
      · have hk2 : ¬k = k1 := fun hEq => hk hEq.symm
        simp [alookup, hk, hk2, ih]

/-- With unique keys, membership determines the lookup result. -/
theorem alookup_eq_some_of_mem_nodup {α : Type} {m : List (String × α)} {k : String} {v : α}
    (hnd : (m.map Prod.fst).Nodup) (h : (k, v) ∈ m) : alookup m k = some v := by
  induction m with
  | nil => simp at h
  | cons p rest ih =>
      obtain ⟨k1, v1⟩ := p
      rw [List.map_cons, List.nodup_cons] at hnd
      rcases List.mem_cons.mp h with h1 | h1
      · cases h1
        simp [alookup]
      · have hk1 : k1 ≠ k := by
          intro hEq
          subst hEq
          exact hnd.1 (List.mem_map.mpr ⟨(k1, v), h1, rfl⟩)
        simp only [alookup, if_neg hk1]
        exact ih hnd.2 h1

/-- Overwriting a key in place makes it look up to the new value whenever the
key was present. -/
theorem alookup_overwrite_self {α : Type} (m : List (String × α)) (k : String) (v : α)
    (hs : (alookup m k).isSome = true) :
    alookup (m.map (fun p => if p.1 = k then (k, v) else p)) k = some v := by
  induction m with
  | nil => simp [alookup] at hs
  | cons p rest ih =>
      obtain ⟨k1, v1⟩ := p
      rw [List.map_cons]
      by_cases hk : k1 = k
      · rw [if_pos (show ((k1, v1) : String × α).1 = k from hk)]
        simp [alookup]
      · rw [if_neg (show ¬((k1, v1) : String × α).1 = k from hk)]
        simp only [alookup, if_neg hk] at hs ⊢
        exact ih hs

/-- Overwriting a key in place leaves other lookups unchanged. -/
theorem alookup_overwrite_other {α : Type} (m : List (String × α)) (k k' : String) (v : α)
    (h : k' ≠ k) :
    alookup (m.map (fun p => if p.1 = k then (k, v) else p)) k' = alookup m k' := by
  induction m with
  | nil => simp [alookup]
  | cons p rest ih =>
      obtain ⟨k1, v1⟩ := p
      rw [List.map_cons]
      by_cases hk : k1 = k
      · rw [if_pos (show ((k1, v1) : String × α).1 = k from hk)]
        subst hk
        simp only [alookup, if_neg (Ne.symm h), if_neg (Ne.symm h)]
        exact ih
      · rw [if_neg (show ¬((k1, v1) : String × α).1 = k from hk)]
        by_cases hk' : k1 = k'
        · simp only [alookup, if_pos hk']
        · simp only [alookup, if_neg hk']
          exact ih

/-- Appending entries falls through to the second list on a miss. -/
theorem alookup_append_of_none {α : Type} {m : List (String × α)} {k : String}
    (m' : List (String × α)) (h : alookup m k = none) :
    alookup (m ++ m') k = alookup m' k := by
  induction m with
  | nil => simp [alookup]
  | cons p rest ih =>
      obtain ⟨k1, v1⟩ := p
      by_cases hk : k1 = k
      · simp [alookup, hk] at h
      · simp only [alookup, if_neg hk, List.cons_append] at h ⊢
        exact ih h

/-- Appending entries preserves a successful lookup in the first list. -/
theorem alookup_append_of_some {α : Type} {m : List (String × α)} {k : String} {v : α}
    (m' : List (String × α)) (h : alookup m k = some v) :
    alookup (m ++ m') k = some v := by
  induction m with
  | nil => simp [alookup] at h
  | cons p rest ih =>
      obtain ⟨k1, v1⟩ := p
      by_cases hk : k1 = k
      · simp only [alookup, if_pos hk, List.cons_append] at h ⊢
        exact h
      · simp only [alookup, if_neg hk, List.cons_append] at h ⊢
        exact ih h

/-- Inserting a key makes it look up to the inserted value. -/
theorem alookup_ainsert_self {α : Type} (m : List (String × α)) (k : String) (v : α) :
    alookup (ainsert m k v) k = some v := by
  unfold ainsert
  by_cases hs : (alookup m k).isSome
  · simp only [hs, if_true]
    exact alookup_overwrite_self m k v hs
  · have hn : alookup m k = none := by
      cases hm : alookup m k
      · rfl
      · simp [hm] at hs
    rw [if_neg hs, alookup_append_of_none _ hn]
    simp [alookup]

/-- Inserting a key leaves other lookups unchanged. -/
theorem alookup_ainsert_other {α : Type} (m : List (String × α)) (k k' : String) (v : α)
    (h : k' ≠ k) : alookup (ainsert m k v) k' = alookup m k' := by
  unfold ainsert
  by_cases hs : (alookup m k).isSome
  · simp only [hs, if_true]
    exact alookup_overwrite_other m k k' v h
  · rw [if_neg hs]
    cases hm : alookup m k' with
    | none =>
        rw [alookup_append_of_none _ hm]
        simp [alookup, Ne.symm h]
    | some w =>
        exact alookup_append_of_some _ hm


/-! ## Fold lemmas for the schema type map -/

/-- A fold of inserts over entries whose keys avoid the looked-up key
preserves that lookup. -/
theorem alookup_foldl_ainsert_of_not_mem {α β : Type} (f : β → α) (bs : List (String × β))
    (init : List (String × α)) (name : String) (h : name ∉ bs.map Prod.fst) :
    alookup (bs.foldl (fun m p => ainsert m p.1 (f p.2)) init) name = alookup init name := by
  induction bs generalizing init with
  | nil => rfl
  | cons p rest ih =>
      obtain ⟨k1, b1⟩ := p
      rw [List.map_cons] at h
      simp only [List.foldl_cons]
      rw [ih _ (fun hm => h (List.mem_cons_of_mem _ hm))]
      exact alookup_ainsert_other init k1 name (f b1)
        (fun hEq => h (hEq ▸ List.mem_cons_self _ _))

/-- With unique keys, a fold of inserts writes each present key to its own
entry's value. -/
theorem alookup_foldl_ainsert_of_mem {α β : Type} (f : β → α) (bs : List (String × β))
    (init : List (String × α)) (name : String) (b : β)
    (hnd : (bs.map Prod.fst).Nodup) (hb : alookup bs name = some b) :
    alookup (bs.foldl (fun m p => ainsert m p.1 (f p.2)) init) name = some (f b) := by
  induction bs generalizing init with
  | nil => simp [alookup] at hb
  | cons p rest ih =>
      obtain ⟨k1, b1⟩ := p
      rw [List.map_cons, List.nodup_cons] at hnd
      simp only [List.foldl_cons]
      by_cases hk : k1 = name
      · subst hk
        simp only [alookup, if_pos rfl] at hb
        injection hb with hbe
        subst hbe
        rw [alookup_foldl_ainsert_of_not_mem f rest _ k1 hnd.1]
        exact alookup_ainsert_self init k1 (f b1)
      · simp only [alookup, if_neg hk] at hb
        exact ih _ hnd.2 hb

/-! ## Claims about path resolution and type derivation -/

/-- C2: resolving a path to an attribute has exactly three non-fatal
outcomes — a walk ending exactly at an Attribute returns it with no error; a
walk ending at a bare type, an underlying-attributes holder or a nested-block
holder returns PathInsideAtomicAttribute; a walk ending exactly at a Block
returns the distinct PathIsBlock; any other terminal shape (the schema
itself) is the distinct unexpected-type error, and a failed walk surfaces the
wrapped walk error. -/
theorem c2_resolution_outcomes (s : Schema) (p : List PathStep) :
    (∃ a, WalkAttributePath (.schema s) p = .ok (.attr a) ∧
       s.AttributeAtTerraformPath p = .ok a) ∨
    (((∃ t, WalkAttributePath (.schema s) p = .ok (.typ t)) ∨
      (∃ cs, WalkAttributePath (.schema s) p = .ok (.nestedObject cs)) ∨
      (∃ b, WalkAttributePath (.schema s) p = .ok (.nestedBlock b))) ∧
       s.AttributeAtTerraformPath p = .error .pathInsideAtomicAttribute) ∨
    (∃ b, WalkAttributePath (.schema s) p = .ok (.block b) ∧
       s.AttributeAtTerraformPath p = .error .pathIsBlock) ∨
    (∃ s2, WalkAttributePath (.schema s) p = .ok (.schema s2) ∧
       s.AttributeAtTerraformPath p = .error .unexpectedType) ∨
    (∃ e, WalkAttributePath (.schema s) p = .error e ∧
       s.AttributeAtTerraformPath p = .error (.walkError e)) := by
  unfold Schema.AttributeAtTerraformPath
  cases h : WalkAttributePath (.schema s) p with
  | error e =>
      exact Or.inr (Or.inr (Or.inr (Or.inr ⟨e, rfl, rfl⟩)))
  | ok node =>
      cases node with
      | schema s2 => exact Or.inr (Or.inr (Or.inr (Or.inl ⟨s2, rfl, rfl⟩)))
      | attr a => exact Or.inl ⟨a, rfl, rfl⟩
      | block b => exact Or.inr (Or.inr (Or.inl ⟨b, rfl, rfl⟩))
      | nestedObject cs => exact Or.inr (Or.inl ⟨Or.inr (Or.inl ⟨cs, rfl⟩), rfl⟩)
      | nestedBlock b => exact Or.inr (Or.inl ⟨Or.inr (Or.inr ⟨b, rfl⟩), rfl⟩)
      | typ t => exact Or.inr (Or.inl ⟨Or.inl ⟨t, rfl⟩, rfl⟩)

/-- C3: TypeAtTerraformPath is strictly more permissive than attribute
resolution — on every walk ending at a bare type, AttributeAtTerraformPath
returns PathInsideAtomicAttribute while TypeAtTerraformPath returns that
narrower type; and TypeAtTerraformPath fails only when the walk itself fails
(a step could not be applied). -/
theorem c3_typeAtPath_permissive (s : Schema) (p : List PathStep) :
    (∀ t, WalkAttributePath (.schema s) p = .ok (.typ t) →
       s.AttributeAtTerraformPath p = .error .pathInsideAtomicAttribute ∧
       s.TypeAtTerraformPath p = .ok t) ∧
    (∀ node, WalkAttributePath (.schema s) p = .ok node →
       ∃ u, s.TypeAtTerraformPath p = .ok u) := by
  constructor
  · intro t h
    constructor
    · simp [Schema.AttributeAtTerraformPath, h]
    · simp [Schema.TypeAtTerraformPath, h]
  · intro node h
    cases node <;> simp [Schema.TypeAtTerraformPath, h]

/-- Schema used by the C3 witness: one leaf attribute of list-of-string
type. -/
def c3Schema : Schema :=
  { attributes := [("xs", .leaf false true false "" (.listT .stringT) [])],
    blocks := [], description := "", markdownDescription := "",
    deprecationMessage := "" }

/-- Path used by the C3 witness: one step inside the leaf list value. -/
def c3Path : List PathStep := [.attributeName "xs", .elementKeyInt 0]

/-- Witness for C3 at a concrete schema and path ending inside a leaf list
attribute. -/
theorem c3_witness :
    c3Schema.AttributeAtTerraformPath c3Path = .error .pathInsideAtomicAttribute ∧
    c3Schema.TypeAtTerraformPath c3Path = .ok .stringT :=
  (c3_typeAtPath_permissive c3Schema c3Path).1 .stringT (by rfl)

/-- C4: every path that resolves to a concrete Attribute has
TypeAtTerraformPath succeed with exactly that attribute GetType result. -/
theorem c4_typeAtPath_of_resolved (s : Schema) (p : List PathStep) (a : Attribute)
    (h : s.AttributeAtTerraformPath p = .ok a) :
    s.TypeAtTerraformPath p = .ok a.GetType := by
  unfold Schema.AttributeAtTerraformPath at h
  cases hw : WalkAttributePath (.schema s) p with
  | error e =>
      rw [hw] at h
      exact absurd h (by simp)
  | ok node =>
      rw [hw] at h
      cases node <;> simp_all [Schema.TypeAtTerraformPath, hw]

/-- Schema used by the C4 witness: one required leaf bool attribute. -/
def c4Schema : Schema :=
  { attributes := [("flag", .leaf true false false "" .boolT [])],
    blocks := [], description := "", markdownDescription := "",
    deprecationMessage := "" }

/-- Witness for C4 at a concrete schema and the path of its one attribute. -/
theorem c4_witness :
    c4Schema.TypeAtTerraformPath [.attributeName "flag"] =
      .ok (Attribute.GetType (.leaf true false false "" .boolT [])) :=
  c4_typeAtPath_of_resolved c4Schema [.attributeName "flag"] _ (by rfl)

/-- C9: when the same name is a key of both the Attributes and the Blocks
map, path stepping resolves to the Attribute (attributes are checked first),
while the schema object type maps the name to the Block type (block types
are merged after attribute types and overwrite them). -/
theorem c9_name_collision (s : Schema) (name : String) (a : Attribute) (b : Block)
    (ha : alookup s.attributes name = some a)
    (hb : alookup s.blocks name = some b)
    (hnd : (s.blocks.map Prod.fst).Nodup) :
    s.ApplyTerraform5AttributePathStep (.attributeName name) = .ok (.attr a) ∧
    s.Type = .objectT (schemaTypeFields s) ∧
    alookup (schemaTypeFields s) name = some b.Type := by
  refine ⟨?_, rfl, ?_⟩
  · simp [Schema.ApplyTerraform5AttributePathStep, ha]
  · unfold schemaTypeFields
    exact alookup_foldl_ainsert_of_mem Block.Type s.blocks _ name b hnd hb

/-- Block used by the C9 witness. -/
def c9Block : Block := { mode := .list, attributes := [] }

/-- Schema used by the C9 witness: the name n is both an attribute and a
block. -/
def c9Schema : Schema :=
  { attributes := [("n", .leaf false true false "" .boolT [])],
    blocks := [("n", c9Block)],
    description := "", markdownDescription := "", deprecationMessage := "" }

/-- Witness for C9 at a concrete schema with a colliding name. -/
theorem c9_witness :
    c9Schema.ApplyTerraform5AttributePathStep (.attributeName "n") =
      .ok (.attr (.leaf false true false "" .boolT [])) ∧
    c9Schema.Type = .objectT (schemaTypeFields c9Schema) ∧
    alookup (schemaTypeFields c9Schema) "n" = some c9Block.Type :=
  c9_name_collision c9Schema "n" _ _ (by rfl) (by rfl) (by simp [c9Schema])


/-! ## Claim C5: NestedAttributeObject equality -/

/-- The childrenIn check holds exactly when every entry of the first map has a
pairwise Equal partner under the same name in the second map. -/
theorem childrenIn_iff (cs gs : List (String × Attribute)) :
    Attribute.childrenIn cs gs = true ↔
      ∀ p ∈ cs, ∃ b, alookup gs p.1 = some b ∧ Attribute.Equal p.2 b = true := by
  induction cs with
  | nil => simp [Attribute.childrenIn]
  | cons p rest ih =>
      obtain ⟨k, a⟩ := p
      simp only [Attribute.childrenIn, Bool.and_eq_true, ih]
      constructor
      · rintro ⟨h1, h2⟩ q hq
        rcases List.mem_cons.mp hq with rfl | hq2
        · cases hg : alookup gs k with
          | none => rw [hg] at h1; simp at h1
          | some b =>
              rw [hg] at h1
              exact ⟨b, rfl, h1⟩
        · exact h2 q hq2
      · intro h
        constructor
        · obtain ⟨b, hb, he⟩ := h (k, a) (List.mem_cons_self _ _)
          rw [hb]
          exact he
        · intro q hq
          exact h q (List.mem_cons_of_mem _ hq)

/-- Characterization of NestedAttributeObject.Equal by its three checks. -/
theorem nestedObjectEqual_eq_true_iff (o other : NestedAttributeObject) :
    NestedAttributeObject.Equal o other = true ↔
      (AttrType.Equal o.Type other.Type = true ∧
       o.attributes.length = other.attributes.length ∧
       Attribute.childrenIn o.attributes other.attributes = true) := by
  unfold NestedAttributeObject.Equal
  by_cases ht : AttrType.Equal o.Type other.Type = true
  · by_cases hl : o.attributes.length = other.attributes.length
    · simp [ht, hl]
    · simp [ht, hl]
  · simp [ht]

/-- C5: NestedAttributeObject.Equal returns true exactly when the derived
types are structurally equal and the two attribute maps hold the same set of
names with pairwise Equal attributes under each name, independent of entry
order; in particular a name present in one map and absent from the other
makes Equal false. -/
theorem c5_nestedObjectEqual_iff (o other : NestedAttributeObject)
    (hno : (o.attributes.map Prod.fst).Nodup)
    (hnother : (other.attributes.map Prod.fst).Nodup) :
    (NestedAttributeObject.Equal o other = true ↔
      (AttrType.Equal o.Type other.Type = true ∧
       (∀ n, (alookup o.attributes n).isSome = true ↔
          (alookup other.attributes n).isSome = true) ∧
       (∀ n a b, alookup o.attributes n = some a →
          alookup other.attributes n = some b →
          Attribute.Equal a b = true))) ∧
    (∀ n, (alookup other.attributes n).isSome = true →
       (alookup o.attributes n).isSome = false →
       NestedAttributeObject.Equal o other = false) := by
  have hiff : NestedAttributeObject.Equal o other = true ↔
      (AttrType.Equal o.Type other.Type = true ∧
       (∀ n, (alookup o.attributes n).isSome = true ↔
          (alookup other.attributes n).isSome = true) ∧
       (∀ n a b, alookup o.attributes n = some a →
          alookup other.attributes n = some b →
          Attribute.Equal a b = true)) := by
    rw [nestedObjectEqual_eq_true_iff]
    constructor
    · rintro ⟨ht, hl, hc⟩
      rw [childrenIn_iff] at hc
      have hforward : ∀ n, (alookup o.attributes n).isSome = true →
          (alookup other.attributes n).isSome = true := by
        intro n hn
        cases ha : alookup o.attributes n with
        | none => rw [ha] at hn; simp at hn
        | some a =>
            obtain ⟨b, hb, _⟩ := hc (n, a) (mem_of_alookup_eq_some ha)
            rw [hb]
            rfl
      have hsub : (o.attributes.map Prod.fst).toFinset ⊆
          (other.attributes.map Prod.fst).toFinset := by
        intro n hn
        rw [List.mem_toFinset, ← alookup_isSome_iff_mem] at hn ⊢
        exact hforward n hn
      have hfeq : (o.attributes.map Prod.fst).toFinset =
          (other.attributes.map Prod.fst).toFinset := by
        apply Finset.eq_of_subset_of_card_le hsub
        rw [List.toFinset_card_of_nodup hno, List.toFinset_card_of_nodup hnother]
        simp [hl]
      refine ⟨ht, ?_, ?_⟩
      · intro n
        rw [alookup_isSome_iff_mem, alookup_isSome_iff_mem,
          ← List.mem_toFinset, ← List.mem_toFinset, hfeq]
      · intro n a b ha hb
        obtain ⟨b2, hb2, he⟩ := hc (n, a) (mem_of_alookup_eq_some ha)
        rw [hb] at hb2
        injection hb2 with hbe
        rw [hbe]
        exact he
    · rintro ⟨ht, hkeys, hpair⟩
      have hfeq : (o.attributes.map Prod.fst).toFinset =
          (other.attributes.map Prod.fst).toFinset := by
        ext n
        rw [List.mem_toFinset, List.mem_toFinset,
          ← alookup_isSome_iff_mem, ← alookup_isSome_iff_mem]
        exact hkeys n
      refine ⟨ht, ?_, ?_⟩
      · have := congrArg Finset.card hfeq
        rw [List.toFinset_card_of_nodup hno, List.toFinset_card_of_nodup hnother] at this
        simpa using this
      · rw [childrenIn_iff]
        rintro ⟨n, a⟩ hmem
        have ha : alookup o.attributes n = some a :=
          alookup_eq_some_of_mem_nodup hno hmem
        have hs : (alookup other.attributes n).isSome = true :=
          (hkeys n).mp (by rw [ha]; rfl)
        cases hb : alookup other.attributes n with
        | none => rw [hb] at hs; simp at hs
        | some b => exact ⟨b, rfl, hpair n a b ha hb⟩
  refine ⟨hiff, ?_⟩
  intro n hother hnone
  cases hEq : NestedAttributeObject.Equal o other with
  | false => rfl
  | true =>
      have hsome := ((hiff.mp hEq).2.1 n).mpr hother
      rw [hnone] at hsome
      exact absurd hsome (by simp)

/-- First map of the C5 witness. -/
def c5o : NestedAttributeObject :=
  { attributes := [("x", .leaf true false false "" .boolT []),
                   ("y", .leaf false true false "" .stringT [])],
    customType := none }

/-- Second map of the C5 witness: same entries in the opposite order. -/
def c5other : NestedAttributeObject :=
  { attributes := [("y", .leaf false true false "" .stringT []),
                   ("x", .leaf true false false "" .boolT [])],
    customType := none }

/-- Witness for C5: two equal nested objects whose entry order differs. -/
theorem c5_witness :
    AttrType.Equal c5o.Type c5other.Type = true ∧
    (∀ n a b, alookup c5o.attributes n = some a →
       alookup c5other.attributes n = some b →
       Attribute.Equal a b = true) :=
  ⟨((c5_nestedObjectEqual_iff c5o c5other (by decide) (by decide)).1.mp
      (by decide)).1,
   ((c5_nestedObjectEqual_iff c5o c5other (by decide) (by decide)).1.mp
      (by decide)).2.2⟩


/-! ## Claims about the validation engine -/

/-- The validator environment in which every validator appends nothing. -/
def noValidators : ValidatorEnv := fun _ _ _ => []

/-- HasError distributes over append. -/
theorem hasError_append (xs ys : List Diagnostic) :
    hasError (xs ++ ys) = (hasError xs || hasError ys) := by
  simp [hasError]

/-- The missing-required diagnostic is an error. -/
theorem hasError_missing (p : List PathStep) :
    hasError [missingRequiredDiag p] = true := by
  simp [hasError, missingRequiredDiag]

/-- C6: an attribute marked neither Required nor Optional nor Computed is
rejected with the invalid-attribute-definition error at its own path before
any configuration value is extracted — the result does not depend on the
configuration or on any validator, and nothing else is appended. -/
theorem c6_invalid_definition_short_circuit (venv : ValidatorEnv) (a : Attribute)
    (path : List PathStep) (config : Val) (diags : List Diagnostic)
    (hr : a.IsRequired = false) (ho : a.IsOptional = false)
    (hc : a.IsComputed = false) :
    AttributeValidate venv a path config diags =
      diags ++ [invalidDefinitionDiag path] := by
  simp [AttributeValidate, hr, ho, hc]

/-- Witness for C6 at a concrete flagless attribute. -/
theorem c6_witness :
    AttributeValidate noValidators (.leaf false false false "" .boolT [])
      [.attributeName "a"] .null [] =
      [invalidDefinitionDiag [.attributeName "a"]] := by
  have h := c6_invalid_definition_short_circuit noValidators
    (.leaf false false false "" .boolT []) [.attributeName "a"] .null [] rfl rfl rfl
  simpa using h

/-- C7: a single-nested attribute whose converted object value is null or
unknown produces no descent and appends no diagnostic at all — the
accumulator is returned unchanged. -/
theorem c7_single_null_unknown_skip (venv : ValidatorEnv)
    (r o c : Bool) (dep : String) (cs : List (String × Attribute)) (vs : List Nat)
    (path : List PathStep) (config : Val) (v : Val) (diags : List Diagnostic)
    (h : (v.isNull || v.isUnknown) = true) :
    AttributeValidateNestedAttributes venv (.nested r o c dep .single cs vs)
      path config v diags = diags := by
  cases v with
  | null =>
      by_cases he : hasError diags = true
      · simp [AttributeValidateNestedAttributes, Val.isObjectShaped, he]
      · simp [AttributeValidateNestedAttributes, Val.isObjectShaped, he, Val.isNull]
  | unknown =>
      by_cases he : hasError diags = true
      · simp [AttributeValidateNestedAttributes, Val.isObjectShaped, he]
      · simp [AttributeValidateNestedAttributes, Val.isObjectShaped, he, Val.isUnknown]
  | bool b => simp [Val.isNull, Val.isUnknown] at h
  | str s => simp [Val.isNull, Val.isUnknown] at h
  | int n => simp [Val.isNull, Val.isUnknown] at h
  | list es => simp [Val.isNull, Val.isUnknown] at h
  | set es => simp [Val.isNull, Val.isUnknown] at h
  | map es => simp [Val.isNull, Val.isUnknown] at h
  | obj fs => simp [Val.isNull, Val.isUnknown] at h

/-- Witness for C7 at a concrete single-nested attribute with a null value. -/
theorem c7_witness :
    AttributeValidateNestedAttributes noValidators
      (.nested false true false "" .single
        [("c", .leaf true false false "" .boolT [])] [])
      [.attributeName "s"] (.obj [("s", .null)]) .null [] = [] :=
  c7_single_null_unknown_skip noValidators false true false ""
    [("c", .leaf true false false "" .boolT [])] [] [.attributeName "s"]
    (.obj [("s", .null)]) .null [] (by decide)

/-- C8: a Required attribute whose extracted configuration value is null has
exactly one missing-required error appended, attached to the attribute own
path (stated for attributes without their own validators, so that only the
engine contributes diagnostics). -/
theorem c8_required_null_missing_diag (venv : ValidatorEnv) (a : Attribute)
    (path : List PathStep) (config : Val) (v : Val) (diags : List Diagnostic)
    (hr : a.IsRequired = true) (hval : a.getValidators = [])
    (hv : valueAtPath config path = .ok v) (hn : v.isNull = true) :
    ∃ ext, AttributeValidate venv a path config diags = diags ++ ext ∧
      ext.filter (fun d => d.summary == missingRequiredSummary) =
        [missingRequiredDiag path] := by
  have hvnull : v = .null := by
    cases v <;> first | rfl | simp [Val.isNull] at hn
  subst hvnull
  cases a with
  | leaf r o c dep t vs =>
      simp only [Attribute.IsRequired] at hr
      simp only [Attribute.getValidators] at hval
      subst hr
      subst hval
      refine ⟨[missingRequiredDiag path], ?_, ?_⟩
      · simp [AttributeValidate, AttributeValidateNestedAttributes, hv,
          Attribute.IsRequired, Attribute.IsOptional, Attribute.IsComputed,
          Attribute.GetDeprecationMessage, Attribute.getValidators,
          validatorDiags, Val.isNull, Val.isUnknown]
      · simp [missingRequiredDiag, missingRequiredSummary]
  | nested r o c dep mode cs vs =>
      simp only [Attribute.IsRequired] at hr
      simp only [Attribute.getValidators] at hval
      subst hr
      subst hval
      cases mode with
      | unknown =>
          refine ⟨[missingRequiredDiag path, unsupportedModeDiag path], ?_, ?_⟩
          · simp [AttributeValidate, AttributeValidateNestedAttributes, hv,
              Attribute.IsRequired, Attribute.IsOptional, Attribute.IsComputed,
              Attribute.GetDeprecationMessage, Attribute.getValidators,
              validatorDiags, Val.isNull, Val.isUnknown]
          · simp [missingRequiredDiag, missingRequiredSummary, unsupportedModeDiag]
      | list =>
          refine ⟨[missingRequiredDiag path], ?_, ?_⟩
          · simp [AttributeValidate, AttributeValidateNestedAttributes, hv,
              Attribute.IsRequired, Attribute.IsOptional, Attribute.IsComputed,
              Attribute.GetDeprecationMessage, Attribute.getValidators,
              validatorDiags, Val.isNull, Val.isUnknown, Val.isListShaped,
              hasError_append, hasError_missing]
          · simp [missingRequiredDiag, missingRequiredSummary]
      | set =>
          refine ⟨[missingRequiredDiag path], ?_, ?_⟩
          · simp [AttributeValidate, AttributeValidateNestedAttributes, hv,
              Attribute.IsRequired, Attribute.IsOptional, Attribute.IsComputed,
              Attribute.GetDeprecationMessage, Attribute.getValidators,
              validatorDiags, Val.isNull, Val.isUnknown, Val.isSetShaped,
              hasError_append, hasError_missing]
          · simp [missingRequiredDiag, missingRequiredSummary]
      | map =>
          refine ⟨[missingRequiredDiag path], ?_, ?_⟩
          · simp [AttributeValidate, AttributeValidateNestedAttributes, hv,
              Attribute.IsRequired, Attribute.IsOptional, Attribute.IsComputed,
              Attribute.GetDeprecationMessage, Attribute.getValidators,
              validatorDiags, Val.isNull, Val.isUnknown, Val.isMapShaped,
              hasError_append, hasError_missing]
          · simp [missingRequiredDiag, missingRequiredSummary]
      | single =>
          refine ⟨[missingRequiredDiag path], ?_, ?_⟩
          · simp [AttributeValidate, AttributeValidateNestedAttributes, hv,
              Attribute.IsRequired, Attribute.IsOptional, Attribute.IsComputed,
              Attribute.GetDeprecationMessage, Attribute.getValidators,
              validatorDiags, Val.isNull, Val.isUnknown, Val.isObjectShaped,
              hasError_append, hasError_missing]
          · simp [missingRequiredDiag, missingRequiredSummary]

/-- Schema value pair used by the C8 witness. -/
def c8Attr : Attribute := .leaf true false false "" .stringT []

/-- Witness for C8 at a concrete required leaf attribute with null value. -/
theorem c8_witness :
    ∃ ext, AttributeValidate noValidators c8Attr [.attributeName "r"]
        (.obj [("r", .null)]) [] = [] ++ ext ∧
      ext.filter (fun d => d.summary == missingRequiredSummary) =
        [missingRequiredDiag [.attributeName "r"]] :=
  c8_required_null_missing_diag noValidators c8Attr [.attributeName "r"]
    (.obj [("r", .null)]) .null [] rfl rfl (by rfl) rfl

/-- The extracted value supports the valuable capability required by the
nesting mode. -/
def shapeOk : NestingMode → Val → Bool
  | .list, v => v.isListShaped
  | .set, v => v.isSetShaped
  | .map, v => v.isMapShaped
  | .single, v => v.isObjectShaped
  | .unknown, _ => false

/-- C1 (amended): after a successful conversion, descent into a nested
attribute is skipped whenever the shared accumulator already holds an error
diagnostic — including errors appended by previously validated siblings — so
descent does depend on the shared accumulator, not only on the subtree own
conversion result. -/
theorem c1_amended_descent_depends_on_accumulator (venv : ValidatorEnv)
    (r o c : Bool) (dep : String) (mode : NestingMode)
    (cs : List (String × Attribute)) (vs : List Nat)
    (path : List PathStep) (config : Val) (v : Val) (diags : List Diagnostic)
    (hmode : mode ≠ .unknown)
    (hshape : shapeOk mode v = true)
    (he : hasError diags = true) :
    AttributeValidateNestedAttributes venv (.nested r o c dep mode cs vs)
      path config v diags = diags := by
  cases mode with
  | list => simp [AttributeValidateNestedAttributes, shapeOk] at hshape ⊢; simp [hshape, he]
  | set => simp [AttributeValidateNestedAttributes, shapeOk] at hshape ⊢; simp [hshape, he]
  | map => simp [AttributeValidateNestedAttributes, shapeOk] at hshape ⊢; simp [hshape, he]
  | single => simp [AttributeValidateNestedAttributes, shapeOk] at hshape ⊢; simp [hshape, he]
  | unknown => exact absurd rfl hmode

/-- Child attribute of the C1 counterexample. -/
def c1Child : Attribute := .leaf true false false "" .boolT []

/-- Single-nested attribute of the C1 counterexample with one required
child. -/
def c1Nested : Attribute := .nested true false false "" .single [("c", c1Child)] []

/-- Path of the nested attribute in the C1 counterexample. -/
def c1Path : List PathStep := [.attributeName "b"]

/-- Root configuration of the C1 counterexample: the nested object is present
and its required child is null. -/
def c1Config : Val := .obj [("b", .obj [("c", .null)])]

/-- An unrelated error diagnostic standing for a previously validated
sibling's failure. -/
def c1Prior : Diagnostic := invalidValueTypeDiag [.attributeName "z"]

/-- C1 counterexample: the same nested attribute, path, configuration and
successfully converted object value are validated twice, differing only in
the error diagnostics already present in the shared accumulator; with an
empty accumulator the engine descends (the required child reports its
missing-required diagnostic), while with a prior unrelated error it returns
the accumulator unchanged and never descends — contradicting the claim that
descent does not depend on previously accumulated sibling errors. -/
theorem c1_counterexample :
    AttributeValidateNestedAttributes noValidators c1Nested c1Path c1Config
      (.obj [("c", .null)]) [] =
      [missingRequiredDiag [.attributeName "b", .attributeName "c"]] ∧
    AttributeValidateNestedAttributes noValidators c1Nested c1Path c1Config
      (.obj [("c", .null)]) [c1Prior] = [c1Prior] := by
  constructor
  · simp [AttributeValidateNestedAttributes, AttributeValidate, validateChildList,
      c1Nested, c1Child, c1Path, c1Config, noValidators, valueAtPath, walkVal,
      alookup, hasError, Val.isObjectShaped, Val.isNull, Val.isUnknown,
      Attribute.IsRequired, Attribute.IsOptional, Attribute.IsComputed,
      Attribute.GetDeprecationMessage, Attribute.getValidators, validatorDiags]
  · simp [AttributeValidateNestedAttributes, c1Nested, c1Path, c1Config, c1Prior,
      noValidators, hasError, invalidValueTypeDiag, Val.isObjectShaped]

/-- Witness for the amended C1 at the counterexample input with a prior
error. -/
theorem c1_amended_witness :
    AttributeValidateNestedAttributes noValidators c1Nested c1Path c1Config
      (.obj [("c", .null)]) [c1Prior] = [c1Prior] :=
  c1_amended_descent_depends_on_accumulator noValidators true false false ""
    .single [("c", c1Child)] [] c1Path c1Config (.obj [("c", .null)]) [c1Prior]
    (by decide) (by decide)
    (by simp [hasError, c1Prior, invalidValueTypeDiag])


/-! ## Claim C10: the deprecation warning condition -/

/-- Every attribute has positive size. -/
theorem attribute_sizeOf_pos (a : Attribute) : 0 < sizeOf a := by
  cases a <;> simp_arith

/-- Every list has positive size. -/
theorem list_sizeOf_pos {α : Type} [SizeOf α] (l : List α) : 0 < sizeOf l := by
  cases l <;> simp_arith

/-- Validators that append nothing contribute no diagnostics. -/
theorem validatorDiags_empty (venv : ValidatorEnv)
    (hvenv : ∀ i p w, venv i p w = []) (ids : List Nat)
    (p : List PathStep) (v : Val) : validatorDiags venv ids p v = [] := by
  unfold validatorDiags
  induction ids with
  | nil => rfl
  | cons i rest ih =>
      rw [List.flatMap_cons, hvenv, List.nil_append]
      exact ih

/-- Membership in a conditional singleton determines the element. -/
theorem mem_if_singleton {cond : Bool} {x d : Diagnostic}
    (hd : d ∈ (if cond = true then [x] else [])) : d = x := by
  split at hd
  · simpa using hd
  · simp at hd

/-- Bounded-size induction over the validation engine: with validators that
append nothing, every appended diagnostic is attached at a path at least as
long as the path of the call, and the nested-validation entry attaches
error severity to every diagnostic it appends at exactly its own path. -/
theorem validate_paths_bound (venv : ValidatorEnv)
    (hvenv : ∀ i p w, venv i p w = []) :
    ∀ n : Nat,
      (∀ a : Attribute, sizeOf a ≤ n → ∀ path config ds, ∃ ext,
         AttributeValidate venv a path config ds = ds ++ ext ∧
         ∀ d ∈ ext, path.length ≤ d.path.length) ∧
      (∀ a : Attribute, sizeOf a ≤ n → ∀ path config v ds, ∃ ext,
         AttributeValidateNestedAttributes venv a path config v ds = ds ++ ext ∧
         ∀ d ∈ ext, path.length ≤ d.path.length ∧
           (d.path.length = path.length → d.severity = .error)) ∧
      (∀ cs : List (String × Attribute), sizeOf cs ≤ n → ∀ pfx config ds, ∃ ext,
         validateChildList venv pfx cs config ds = ds ++ ext ∧
         ∀ d ∈ ext, pfx.length + 1 ≤ d.path.length) ∧
      (∀ cs : List (String × Attribute), sizeOf cs ≤ n →
         ∀ (pfxs : List (List PathStep)) (m : Nat), (∀ q ∈ pfxs, m ≤ q.length) →
         ∀ config ds, ∃ ext,
         validateElements venv pfxs cs config ds = ds ++ ext ∧
         ∀ d ∈ ext, m + 1 ≤ d.path.length) := by
  intro n
  induction n with
  | zero =>
      refine ⟨?_, ?_, ?_, ?_⟩
      · intro a ha
        exact absurd ha (by have := attribute_sizeOf_pos a; omega)
      · intro a ha
        exact absurd ha (by have := attribute_sizeOf_pos a; omega)
      · intro cs hcs
        exact absurd hcs (by have := list_sizeOf_pos cs; omega)
      · intro cs hcs
        exact absurd hcs (by have := list_sizeOf_pos cs; omega)
  | succ n ih =>
      obtain ⟨ihM, ihN, ihCL, ihE⟩ := ih
      have hCL : ∀ cs : List (String × Attribute), sizeOf cs ≤ n + 1 →
          ∀ pfx config ds, ∃ ext,
          validateChildList venv pfx cs config ds = ds ++ ext ∧
          ∀ d ∈ ext, pfx.length + 1 ≤ d.path.length := by
        intro cs hcs pfx config ds
        cases cs with
        | nil =>
            refine ⟨[], by simp [validateChildList], ?_⟩
            intro d hd
            simp at hd
        | cons p rest =>
            obtain ⟨name, c⟩ := p
            have hsz : sizeOf ((name, c) :: rest) =
                1 + (1 + sizeOf name + sizeOf c) + sizeOf rest := by
              simp_arith
            have hszc : sizeOf c ≤ n := by omega
            have hszrest : sizeOf rest ≤ n := by omega
            obtain ⟨e1, he1, hall1⟩ :=
              ihM c hszc (pfx ++ [.attributeName name]) config ds
            obtain ⟨e2, he2, hall2⟩ := ihCL rest hszrest pfx config (ds ++ e1)
            refine ⟨e1 ++ e2, ?_, ?_⟩
            · simp only [validateChildList]
              rw [he1, he2, List.append_assoc]
            · intro d hd
              rcases List.mem_append.mp hd with hd | hd
              · have h1 := hall1 d hd
                rw [List.length_append] at h1
                simpa using h1
              · exact hall2 d hd
      have hE : ∀ cs : List (String × Attribute), sizeOf cs ≤ n + 1 →
          ∀ (pfxs : List (List PathStep)) (m : Nat), (∀ q ∈ pfxs, m ≤ q.length) →
          ∀ config ds, ∃ ext,
          validateElements venv pfxs cs config ds = ds ++ ext ∧
          ∀ d ∈ ext, m + 1 ≤ d.path.length := by
        intro cs hcs pfxs
        induction pfxs with
        | nil =>
            intro m hq config ds
            refine ⟨[], by simp [validateElements], ?_⟩
            intro d hd
            simp at hd
        | cons q rest ihp =>
            intro m hq config ds
            obtain ⟨e1, he1, hall1⟩ := hCL cs hcs q config ds
            obtain ⟨e2, he2, hall2⟩ :=
              ihp m (fun r hr => hq r (List.mem_cons_of_mem _ hr)) config (ds ++ e1)
            refine ⟨e1 ++ e2, ?_, ?_⟩
            · simp only [validateElements]
              rw [he1, he2, List.append_assoc]
            · intro d hd
              rcases List.mem_append.mp hd with hd | hd
              · have h1 := hall1 d hd
                have h2 := hq q (List.mem_cons_self _ _)
                omega
              · exact hall2 d hd
      have hN : ∀ a : Attribute, sizeOf a ≤ n + 1 → ∀ path config v ds, ∃ ext,
          AttributeValidateNestedAttributes venv a path config v ds = ds ++ ext ∧
          ∀ d ∈ ext, path.length ≤ d.path.length ∧
            (d.path.length = path.length → d.severity = .error) := by
        intro a ha path config v ds
        cases a with
        | leaf r o c dep t vs =>
            refine ⟨[], by simp [AttributeValidateNestedAttributes], ?_⟩
            intro d hd
            simp at hd
        | nested r o c dep mode cs vs =>
            have hsz : sizeOf (Attribute.nested r o c dep mode cs vs) =
                1 + 1 + 1 + 1 + sizeOf dep + sizeOf mode + sizeOf cs + sizeOf vs := by
              simp_arith
            have hszcs : sizeOf cs ≤ n + 1 := by
              have := list_sizeOf_pos vs
              omega
            cases mode with
            | list =>
                by_cases hsh : v.isListShaped = true
                · by_cases he : hasError ds = true
                  · refine ⟨[], ?_, ?_⟩
                    · simp [AttributeValidateNestedAttributes, hsh, he]
                    · intro d hd
                      simp at hd
                  · obtain ⟨ext, hext, hall⟩ := hE cs hszcs
                      ((List.range v.elements.length).map
                        (fun i => path ++ [.elementKeyInt i]))
                      path.length
                      (by
                        intro q hqm
                        obtain ⟨i, _, rfl⟩ := List.mem_map.mp hqm
                        simp)
                      config ds
                    refine ⟨ext, ?_, ?_⟩
                    · simp only [AttributeValidateNestedAttributes]
                      simp only [hsh, Bool.not_true, Bool.false_eq_true, if_false, he]
                      exact hext
                    · intro d hd
                      have h1 := hall d hd
                      exact ⟨by omega, by intro hle; omega⟩
                · refine ⟨[invalidValueTypeDiag path], ?_, ?_⟩
                  · simp [AttributeValidateNestedAttributes, hsh]
                  · intro d hd
                    simp at hd
                    subst hd
                    exact ⟨by simp [invalidValueTypeDiag],
                      fun _ => by simp [invalidValueTypeDiag]⟩
            | set =>
                by_cases hsh : v.isSetShaped = true
                · by_cases he : hasError ds = true
                  · refine ⟨[], ?_, ?_⟩
                    · simp [AttributeValidateNestedAttributes, hsh, he]
                    · intro d hd
                      simp at hd
                  · obtain ⟨ext, hext, hall⟩ := hE cs hszcs
                      (v.elements.map (fun w => path ++ [.elementKeyValue w]))
                      path.length
                      (by
                        intro q hqm
                        obtain ⟨w, _, rfl⟩ := List.mem_map.mp hqm
                        simp)
                      config ds
                    refine ⟨ext, ?_, ?_⟩
                    · simp only [AttributeValidateNestedAttributes]
                      simp only [hsh, Bool.not_true, Bool.false_eq_true, if_false, he]
                      exact hext
                    · intro d hd
                      have h1 := hall d hd
                      exact ⟨by omega, by intro hle; omega⟩
                · refine ⟨[invalidValueTypeDiag path], ?_, ?_⟩
                  · simp [AttributeValidateNestedAttributes, hsh]
                  · intro d hd
                    simp at hd
                    subst hd
                    exact ⟨by simp [invalidValueTypeDiag],
                      fun _ => by simp [invalidValueTypeDiag]⟩
            | map =>
                by_cases hsh : v.isMapShaped = true
                · by_cases he : hasError ds = true
                  · refine ⟨[], ?_, ?_⟩
                    · simp [AttributeValidateNestedAttributes, hsh, he]
                    · intro d hd
                      simp at hd
                  · obtain ⟨ext, hext, hall⟩ := hE cs hszcs
                      (v.entries.map (fun kv => path ++ [.elementKeyString kv.1]))
                      path.length
                      (by
                        intro q hqm
                        obtain ⟨kv, _, rfl⟩ := List.mem_map.mp hqm
                        simp)
                      config ds
                    refine ⟨ext, ?_, ?_⟩
                    · simp only [AttributeValidateNestedAttributes]
                      simp only [hsh, Bool.not_true, Bool.false_eq_true, if_false, he]
                      exact hext
                    · intro d hd
                      have h1 := hall d hd
                      exact ⟨by omega, by intro hle; omega⟩
                · refine ⟨[invalidValueTypeDiag path], ?_, ?_⟩
                  · simp [AttributeValidateNestedAttributes, hsh]
                  · intro d hd
                    simp at hd
                    subst hd
                    exact ⟨by simp [invalidValueTypeDiag],
                      fun _ => by simp [invalidValueTypeDiag]⟩
            | single =>
                by_cases hsh : v.isObjectShaped = true
                · by_cases he : hasError ds = true
                  · refine ⟨[], ?_, ?_⟩
                    · simp [AttributeValidateNestedAttributes, hsh, he]
                    · intro d hd
                      simp at hd
                  · by_cases hnu : (v.isNull || v.isUnknown) = true
                    · refine ⟨[], ?_, ?_⟩
                      · simp [AttributeValidateNestedAttributes, hsh, he, hnu]
                      · intro d hd
                        simp at hd
                    · obtain ⟨ext, hext, hall⟩ := hCL cs hszcs path config ds
                      refine ⟨ext, ?_, ?_⟩
                      · simp only [AttributeValidateNestedAttributes]
                        simp only [hsh, Bool.not_true, Bool.false_eq_true, if_false, he, hnu]
                        exact hext
                      · intro d hd
                        have h1 := hall d hd
                        exact ⟨by omega, by intro hle; omega⟩
                · refine ⟨[invalidValueTypeDiag path], ?_, ?_⟩
                  · simp [AttributeValidateNestedAttributes, hsh]
                  · intro d hd
                    simp at hd
                    subst hd
                    exact ⟨by simp [invalidValueTypeDiag],
                      fun _ => by simp [invalidValueTypeDiag]⟩
            | unknown =>
                refine ⟨[unsupportedModeDiag path], ?_, ?_⟩
                · simp [AttributeValidateNestedAttributes]
                · intro d hd
                  simp at hd
                  subst hd
                  exact ⟨by simp [unsupportedModeDiag],
                    fun _ => by simp [unsupportedModeDiag]⟩
      have hM : ∀ a : Attribute, sizeOf a ≤ n + 1 → ∀ path config ds, ∃ ext,
          AttributeValidate venv a path config ds = ds ++ ext ∧
          ∀ d ∈ ext, path.length ≤ d.path.length := by
        intro a ha path config ds
        by_cases hdef : (!a.IsRequired && !a.IsOptional && !a.IsComputed) = true
        · refine ⟨[invalidDefinitionDiag path], ?_, ?_⟩
          · simp [AttributeValidate, hdef]
          · intro d hd
            simp at hd
            subst hd
            simp [invalidDefinitionDiag]
        · cases hv : valueAtPath config path with
          | error eds =>
              have heds : eds = [valueAtPathErrDiag path] := by
                unfold valueAtPath at hv
                cases hw : walkVal config path with
                | some w => rw [hw] at hv; exact absurd hv (by simp)
                | none =>
                    rw [hw] at hv
                    injection hv with h
                    exact h.symm
              refine ⟨eds, ?_, ?_⟩
              · simp [AttributeValidate, hdef, hv]
              · subst heds
                intro d hd
                simp at hd
                subst hd
                simp [valueAtPathErrDiag]
          | ok v =>
              obtain ⟨extN, hextN, hallN⟩ := hN a ha path config v
                ((ds ++ (if a.IsComputed && !a.IsOptional && !v.isNull then
                    [readOnlyDiag path] else [])) ++
                  (if a.IsRequired && v.isNull then [missingRequiredDiag path] else []))
              refine ⟨(if a.IsComputed && !a.IsOptional && !v.isNull then
                    [readOnlyDiag path] else []) ++
                  ((if a.IsRequired && v.isNull then [missingRequiredDiag path] else []) ++
                   (extN ++
                    (if a.GetDeprecationMessage != "" && !v.isNull && !v.isUnknown then
                      [deprecationDiag path a.GetDeprecationMessage] else []))), ?_, ?_⟩
              · simp only [AttributeValidate, hdef, Bool.false_eq_true, if_false, hv]
                rw [validatorDiags_empty venv hvenv, List.append_nil, hextN]
                simp [List.append_assoc]
              · intro d hd
                rcases List.mem_append.mp hd with hd | hd
                · have := mem_if_singleton hd
                  subst this
                  simp [readOnlyDiag]
                · rcases List.mem_append.mp hd with hd | hd
                  · have := mem_if_singleton hd
                    subst this
                    simp [missingRequiredDiag]
                  · rcases List.mem_append.mp hd with hd | hd
                    · exact (hallN d hd).1
                    · have := mem_if_singleton hd
                      subst this
                      simp [deprecationDiag]
      exact ⟨hM, hN, hCL, hE⟩


/-- C10: with a definition-valid attribute whose configuration value was
extracted successfully (and validators that append nothing, so that only the
engine contributes diagnostics), AttributeValidate appends the deprecation
warning exactly when the deprecation message is non-empty and the extracted
value is neither null nor unknown. -/
theorem c10_deprecation_warning_iff (venv : ValidatorEnv)
    (hvenv : ∀ i p w, venv i p w = [])
    (a : Attribute) (path : List PathStep) (config : Val) (v : Val)
    (ds : List Diagnostic)
    (hdef : (!a.IsRequired && !a.IsOptional && !a.IsComputed) = false)
    (hv : valueAtPath config path = .ok v) :
    ∃ ext, AttributeValidate venv a path config ds = ds ++ ext ∧
      (deprecationDiag path a.GetDeprecationMessage ∈ ext ↔
        (a.GetDeprecationMessage ≠ "" ∧ v.isNull = false ∧ v.isUnknown = false)) := by
  obtain ⟨extN, hextN, hallN⟩ :=
    ((validate_paths_bound venv hvenv (sizeOf a)).2.1) a (le_refl _) path config v
      ((ds ++ (if a.IsComputed && !a.IsOptional && !v.isNull then
          [readOnlyDiag path] else [])) ++
        (if a.IsRequired && v.isNull then [missingRequiredDiag path] else []))
  refine ⟨(if a.IsComputed && !a.IsOptional && !v.isNull then
        [readOnlyDiag path] else []) ++
      ((if a.IsRequired && v.isNull then [missingRequiredDiag path] else []) ++
       (extN ++
        (if a.GetDeprecationMessage != "" && !v.isNull && !v.isUnknown then
          [deprecationDiag path a.GetDeprecationMessage] else []))), ?_, ?_⟩
  · simp only [AttributeValidate, hdef, Bool.false_eq_true, if_false, hv]
    rw [validatorDiags_empty venv hvenv, List.append_nil, hextN]
    simp [List.append_assoc]
  · constructor
    · intro hmem
      rcases List.mem_append.mp hmem with hd | hd
      · have hx := mem_if_singleton hd
        have := congrArg Diagnostic.severity hx
        simp [deprecationDiag, readOnlyDiag] at this
      · rcases List.mem_append.mp hd with hd | hd
        · have hx := mem_if_singleton hd
          have := congrArg Diagnostic.severity hx
          simp [deprecationDiag, missingRequiredDiag] at this
        · rcases List.mem_append.mp hd with hd | hd
          · have hx := (hallN _ hd).2 (by simp [deprecationDiag])
            simp [deprecationDiag] at hx
          · by_cases hc : (a.GetDeprecationMessage != "" && !v.isNull && !v.isUnknown) = true
            · rw [Bool.and_eq_true, Bool.and_eq_true] at hc
              refine ⟨?_, ?_, ?_⟩
              · have := hc.1.1
                simpa using this
              · have := hc.1.2
                simpa using this
              · have := hc.2
                simpa using this
            · rw [if_neg hc] at hd
              simp at hd
    · rintro ⟨h1, h2, h3⟩
      have hc : (a.GetDeprecationMessage != "" && !v.isNull && !v.isUnknown) = true := by
        simp [h1, h2, h3]
      refine List.mem_append.mpr (Or.inr (List.mem_append.mpr (Or.inr
        (List.mem_append.mpr (Or.inr ?_)))))
      rw [if_pos hc]
      exact List.mem_singleton.mpr rfl

/-- Attribute used by the C10 witness: optional, deprecated leaf. -/
def c10Attr : Attribute := .leaf false true false "legacy" .stringT []

/-- Witness for C10 at a concrete deprecated attribute with a known value. -/
theorem c10_witness :
    ∃ ext, AttributeValidate noValidators c10Attr [.attributeName "d"]
        (.obj [("d", .str "x")]) [] = [] ++ ext ∧
      (deprecationDiag [.attributeName "d"] c10Attr.GetDeprecationMessage ∈ ext ↔
        (c10Attr.GetDeprecationMessage ≠ "" ∧ (Val.str "x").isNull = false ∧
         (Val.str "x").isUnknown = false)) :=
  c10_deprecation_warning_iff noValidators (fun _ _ _ => rfl) c10Attr
    [.attributeName "d"] (.obj [("d", .str "x")]) (.str "x") [] (by rfl) (by rfl)

end TFW
